import Mathlib

/-!
Verification of the custom-allocators repository (linear, stack, pool and
arena allocators) against its natural-language specification.

The four C++ headers are shallowly embedded below.  Machine integers
(`size_t`) are modelled as `Nat`; the one place where 64-bit wraparound is
semantically relevant is unsigned subtraction inside the capacity checks
(`size <= capacity - corrected_offset`), which is modelled explicitly by
`usub` with modulus `2 ^ 64`.  Buffers are modelled as `List Nat` of bytes
whose initial (malloc) contents are arbitrary parameters; base addresses of
buffers are `Nat` parameters (needed because the linear and arena
allocators align the absolute address `buffer + offset`).  Returning
`nullptr` is modelled as `none`; an `assert` failure is modelled by an
`Option` result being `none` at the outer level.
-/

/-- 2^64, the modulus of `size_t` arithmetic on the 64-bit targets the
repository is written for (`sizeof(void *) == 8`). -/
def U64 : Nat := 2 ^ 64

/-- Unsigned 64-bit subtraction `a - b` with wraparound, as performed on
`size_t` operands in the sources.  For in-range operands with `b ≤ a` this
is plain subtraction; for `a < b` it wraps to a huge value, which is what
makes the capacity checks in the sources unsound. -/
def usub (a b : Nat) : Nat := (a + U64 - b % U64) % U64

/-- Round `x` down to a multiple of `a` (`x & ~(a - 1)` for a power of two
`a`; for `a = 0` the C expression `x & ~(0 - 1) = x & 0` is `0`, and Nat
division by zero makes this definition agree). -/
def alignDown (x a : Nat) : Nat := x / a * a

/-- Source `alignof(max_align_t)` on the 64-bit targets of the sources. -/
def DEFAULT_ALIGNMENT : Nat := 16

/-- Source `#define ALIGNMENT sizeof(void *)` from linear_alloc.h / arena_alloc.h. -/
def ALIGNMENT : Nat := 8

/-! ## Stack allocator (stack_alloc.h)

`StackAllocator` fields `_offset`, `_capacity`, `_buffer`. -/

structure StackState where
  offset : Nat
  capacity : Nat
  data : List Nat
  deriving DecidableEq, Repr

/-- Source `StackAllocator::StackAllocator(capacity)`: offset 0; the malloc'd
buffer contents are the arbitrary parameter `data` (length `capacity`). -/
def stackInit (capacity : Nat) (data : List Nat) : StackState :=
  ⟨0, capacity, data⟩

/-- The alignment correction `(_offset + alignment - 1) & ~(alignment - 1)`
of stack_alloc.h (both `alloc` and `alloc_align`), in `size_t` arithmetic. -/
def stackCorrected (offset align : Nat) : Nat :=
  alignDown ((offset + usub align 1) % U64) align

/-- Source `StackAllocator::alloc_align(size, alignment)`.  The outer `Option` is
the power-of-two assertion (`none` = assertion failure); the inner
`Option Nat` is the returned pointer, as an index into the buffer
(`none` = nullptr, "out of space").  Note the capacity check is the
`size_t` subtraction `size <= _capacity - corrected_offset`. -/
def stackAllocAlign (st : StackState) (size align : Nat) :
    Option (Option Nat × StackState) :=
  if align &&& usub align 1 ≠ 0 then none
  else
    let corrected := stackCorrected st.offset align
    if size ≤ usub st.capacity corrected then
      some (some corrected, ⟨corrected + size, st.capacity, st.data⟩)
    else
      some (none, st)

/-- Source `StackAllocator::alloc(size)`: same mechanics with the constexpr
`DEFAULT_ALIGNMENT = alignof(max_align_t)`. -/
def stackAlloc (st : StackState) (size : Nat) : Option Nat × StackState :=
  let corrected := stackCorrected st.offset DEFAULT_ALIGNMENT
  if size ≤ usub st.capacity corrected then
    (some corrected, ⟨corrected + size, st.capacity, st.data⟩)
  else
    (none, st)

/-- Source `StackAllocator::get_offset()` (the marker getter). -/
def stackGetOffset (st : StackState) : Nat := st.offset

/-- Source `StackAllocator::free_to_offset(offset)`: `assert(offset >= 0 && offset
< _offset)` then `_offset = offset`.  `none` models the assertion firing;
the `0 ≤ offset` conjunct is vacuous for `size_t`, and the upper bound in
the source is the strict `<`. -/
def stackFreeToOffset (st : StackState) (offset : Nat) : Option StackState :=
  if 0 ≤ offset ∧ offset < st.offset then
    some ⟨offset, st.capacity, st.data⟩
  else
    none

/-- Source `StackAllocator::resize(capacity)`: no-op unless growing; otherwise
malloc a new buffer (arbitrary contents `fData`, length `capacity`),
`memcpy` the first `_offset` bytes from the old buffer, free the old one.
Bytes of the new buffer beyond the copied region keep their malloc
contents. -/
def stackResize (st : StackState) (capacity : Nat) (fData : List Nat) :
    StackState :=
  if capacity ≤ st.capacity then st
  else
    let copied := st.data.take st.offset
    ⟨st.offset, capacity, copied ++ fData.drop copied.length⟩

/-- Source `StackAllocator::free_all()`. -/
def stackFreeAll (st : StackState) : StackState :=
  ⟨0, st.capacity, st.data⟩

/-! ## Linear allocator (linear_alloc.h)

`LinearAllocator` fields `m_buffer`, `m_offset`, `m_capacity`; `addr` is
the (malloc-chosen) base address of `m_buffer`, which the aligned `alloc`
inspects. -/

structure LinearState where
  addr : Nat
  data : List Nat
  offset : Nat
  capacity : Nat
  deriving DecidableEq, Repr

/-- Source `LinearAllocator::LinearAllocator(capacity)`. -/
def linearInit (capacity addr : Nat) (data : List Nat) : LinearState :=
  ⟨addr, data, 0, capacity⟩

/-- The alignment correction of `LinearAllocator::alloc`: `boundary_gap =
((uintptr_t)buffer + offset) & (ALIGNMENT - 1)`, then `offset + (ALIGNMENT
- boundary_gap)` if the gap is nonzero. -/
def linearCorrected (addr offset : Nat) : Nat :=
  if (addr + offset) % ALIGNMENT ≠ 0 then
    offset + (ALIGNMENT - (addr + offset) % ALIGNMENT)
  else offset

/-- Source `LinearAllocator::alloc(size)`: aligned bump allocation.  The returned
pointer is the buffer index `corrected_offset`; the capacity check is the
`size_t` subtraction. -/
def linearAlloc (st : LinearState) (size : Nat) : Option Nat × LinearState :=
  let corrected := linearCorrected st.addr st.offset
  if size ≤ usub st.capacity corrected then
    (some corrected, ⟨st.addr, st.data, corrected + size, st.capacity⟩)
  else
    (none, st)

/-- Source `LinearAllocator::alloc_noalign(size)`. -/
def linearAllocNoalign (st : LinearState) (size : Nat) :
    Option Nat × LinearState :=
  if size ≤ usub st.capacity st.offset then
    (some st.offset, ⟨st.addr, st.data, st.offset + size, st.capacity⟩)
  else
    (none, st)

/-- Source `LinearAllocator::resize(capacity)`: no-op unless growing; otherwise
the source performs `memcpy(new_buffer, m_buffer, m_capacity - m_offset +
1)` — note the length is `m_capacity - m_offset + 1`, not `m_offset`.
When that length exceeds the old buffer the C read is out of bounds; the
model caps the read at the buffer end.  Bytes of the new buffer beyond the
copied region keep their malloc contents (`fData`). -/
def linearResize (st : LinearState) (capacity fAddr : Nat)
    (fData : List Nat) : LinearState :=
  if capacity ≤ st.capacity then st
  else
    let copied := st.data.take (usub st.capacity st.offset + 1)
    ⟨fAddr, copied ++ fData.drop copied.length, st.offset, capacity⟩

/-- Source `LinearAllocator::free()`. -/
def linearFree (st : LinearState) : LinearState :=
  ⟨st.addr, st.data, 0, st.capacity⟩

/-! ## Pool allocator (pool_alloc.h)

`PoolAllocator` fields `_chunk_count`, `_chunk_size`, `_buffer`,
`_free_list_head`.  The intrusive free list (each free chunk's first bytes
holding a pointer to the next free chunk, `nullptr`-terminated) is
modelled as the list of the chunk addresses in chain order: the head of
the list is `_free_list_head`, each element's stored "next" pointer is the
following element, and the terminating null is the end of the list. -/

structure PoolState where
  chunkCount : Nat
  chunkSize : Nat
  bufferAddr : Nat
  freeList : List Nat
  deriving DecidableEq, Repr

/-- Source `PoolAllocator::free_all()`: head is set to `_buffer`, then the loop
`for (i = 0; i < _chunk_count - 1; i++)` links node `i` to
`_buffer + (i+1) * _chunk_size`, and the last node gets a null next.
(For `_chunk_count == 0` the C comparison of the `int` counter against the
unsigned `_chunk_count - 1` makes the loop run essentially forever — the
latent defect flagged in the spec; the model is only meaningful for
`chunkCount ≥ 1`.) -/
def poolFreeAll (st : PoolState) : PoolState :=
  ⟨st.chunkCount, st.chunkSize, st.bufferAddr,
    st.bufferAddr ::
      (List.range (st.chunkCount - 1)).map
        (fun i => st.bufferAddr + (i + 1) * st.chunkSize)⟩

/-- Source `PoolAllocator::PoolAllocator(chunk_count, chunk_size)`: rounds the
chunk size up to `DEFAULT_ALIGNMENT` with `(chunk_size + A - 1) & ~(A-1)`,
mallocs the buffer, then builds the initial free list via `free_all`. -/
def poolInit (chunkCount chunkSize bufferAddr : Nat) : PoolState :=
  poolFreeAll
    ⟨chunkCount,
      alignDown ((chunkSize + usub DEFAULT_ALIGNMENT 1) % U64)
        DEFAULT_ALIGNMENT,
      bufferAddr, []⟩

/-- Source `PoolAllocator::alloc()`: pop the free-list head, or return `nullptr`
(`none`) when the list is empty. -/
def poolAlloc (st : PoolState) : Option Nat × PoolState :=
  match st.freeList with
  | [] => (none, st)
  | p :: rest =>
      (some p, ⟨st.chunkCount, st.chunkSize, st.bufferAddr, rest⟩)

/-- Source `PoolAllocator::free(chunk)`: push `chunk` on the free-list head (the
chunk's first bytes receive the old head as its "next"). -/
def poolFree (st : PoolState) (chunk : Nat) : PoolState :=
  ⟨st.chunkCount, st.chunkSize, st.bufferAddr, chunk :: st.freeList⟩

/-- Iterate `poolAlloc` `n` times, collecting the returned pointers. -/
def poolAllocN (st : PoolState) : Nat → List (Option Nat) × PoolState
  | 0 => ([], st)
  | n + 1 =>
      let r := poolAlloc st
      let rs := poolAllocN r.2 n
      (r.1 :: rs.1, rs.2)

/-! ## Arena allocator (arena_alloc.h)

`ArenaBlock` fields `next`, `buffer`, `offset`, `capacity`.  The block
chain is represented as a zipper: `pre` is the list of blocks strictly
before `m_current` in chain order, `curB` is the block `m_current` points
to, and `post` is the list of blocks strictly after it (`m_current->next`
is the head of `post`, and `m_head` is the first block of
`pre ++ curB :: post`, which never changes). -/

structure ArenaBlk where
  addr : Nat
  data : List Nat
  offset : Nat
  capacity : Nat
  deriving DecidableEq, Repr

structure ArenaState where
  pre : List ArenaBlk
  curB : ArenaBlk
  post : List ArenaBlk
  total : Nat
  deriving DecidableEq, Repr

/-- The block chain from `m_head`, in order. -/
def chain (st : ArenaState) : List ArenaBlk :=
  st.pre ++ st.curB :: st.post

/-- Source `ArenaAllocator::ArenaAllocator(initial_capacity)`: a single block,
offset 0, with malloc-chosen base address and contents. -/
def arenaInit (capacity addr : Nat) (data : List Nat) : ArenaState :=
  ⟨[], ⟨addr, data, 0, capacity⟩, [], 0⟩

/-- The alignment correction of `ArenaAllocator::alloc` on a block:
`boundary_gap = ((uintptr_t)buffer + offset) & (ALIGNMENT - 1)`, then
`offset + (ALIGNMENT - boundary_gap)` if the gap is nonzero. -/
def arenaCorrected (b : ArenaBlk) : Nat :=
  if (b.addr + b.offset) % ALIGNMENT ≠ 0 then
    b.offset + (ALIGNMENT - (b.addr + b.offset) % ALIGNMENT)
  else b.offset

/-- Source `ArenaAllocator::alloc_noalign(size)`.  Three branches as in the
source: (1) the request fits in the current block (`size_t` capacity
check), bump its offset; (2) a next block exists and is large enough, make
it current and return its base address; (3) otherwise create a new block —
spliced immediately after current when a (too small) next block exists,
with capacity exactly `size`; appended with capacity
`max(capacity * 1.5, size)` when current is the last block.  `fA`/`fD` are
the malloc-chosen address and contents of the new block's buffer (unused
in branches 1 and 2).  The returned `Nat` is the address handed to the
caller; `3 * c / 2` is exactly the `(size_t)(c * 1.5)` of the source for
the capacities a real process can hold (double rounding is exact below
`2^52`). -/
def arenaAllocNoalign (st : ArenaState) (size fA : Nat) (fD : List Nat) :
    Nat × ArenaState :=
  if size ≤ usub st.curB.capacity st.curB.offset then
    (st.curB.addr + st.curB.offset,
      ⟨st.pre,
        ⟨st.curB.addr, st.curB.data, st.curB.offset + size,
          st.curB.capacity⟩,
        st.post, st.total + size⟩)
  else
    match st.post with
    | nb :: rest =>
        if size ≤ nb.capacity then
          (nb.addr,
            ⟨st.pre ++ [st.curB],
              ⟨nb.addr, nb.data, nb.offset + size, nb.capacity⟩,
              rest, st.total + size⟩)
        else
          (fA,
            ⟨st.pre ++ [st.curB], ⟨fA, fD, size, size⟩,
              nb :: rest, st.total + size⟩)
    | [] =>
        (fA,
          ⟨st.pre ++ [st.curB],
            ⟨fA, fD, size, max (3 * st.curB.capacity / 2) size⟩,
            [], st.total + size⟩)

/-- Source `ArenaAllocator::alloc(size)`: as `alloc_noalign` but branch 1 uses
the alignment-corrected offset and charges `corrected_offset + size -
offset` to the running total; branches 2 and 3 are verbatim the same as in
`alloc_noalign`. -/
def arenaAlloc (st : ArenaState) (size fA : Nat) (fD : List Nat) :
    Nat × ArenaState :=
  let corrected := arenaCorrected st.curB
  if size ≤ usub st.curB.capacity corrected then
    (st.curB.addr + corrected,
      ⟨st.pre,
        ⟨st.curB.addr, st.curB.data, corrected + size, st.curB.capacity⟩,
        st.post, st.total + (corrected + size - st.curB.offset)⟩)
  else
    match st.post with
    | nb :: rest =>
        if size ≤ nb.capacity then
          (nb.addr,
            ⟨st.pre ++ [st.curB],
              ⟨nb.addr, nb.data, nb.offset + size, nb.capacity⟩,
              rest, st.total + size⟩)
        else
          (fA,
            ⟨st.pre ++ [st.curB], ⟨fA, fD, size, size⟩,
              nb :: rest, st.total + size⟩)
    | [] =>
        (fA,
          ⟨st.pre ++ [st.curB],
            ⟨fA, fD, size, max (3 * st.curB.capacity / 2) size⟩,
            [], st.total + size⟩)

/-- The while loop of `ArenaAllocator::free()`: walk the chain setting
every block's offset to 0 (blocks are kept, nothing is released). -/
def zeroOffsets : List ArenaBlk → List ArenaBlk
  | [] => []
  | b :: bs => ⟨b.addr, b.data, 0, b.capacity⟩ :: zeroOffsets bs

/-- Source `ArenaAllocator::free()`: zero every block's offset, reset `m_current`
to `m_head`, reset the running total.  The chain is never empty, so the
first match arm is dead. -/
def arenaFree (st : ArenaState) : ArenaState :=
  match zeroOffsets (chain st) with
  | [] => ⟨[], st.curB, [], 0⟩
  | h :: t => ⟨[], h, t, 0⟩

/-- The bytes the packing loop of `ArenaAllocator::pack` copies: for each
block in chain order, `memcpy` reads `offset` bytes from its buffer (the
model caps the read at the buffer end; the C read is out of bounds beyond
it). -/
def packContents : List ArenaBlk → List Nat
  | [] => []
  | b :: bs => b.data.take b.offset ++ packContents bs

/-- Source `ArenaAllocator::pack(packed_size)`: malloc a buffer of `m_total_size`
bytes, store `m_total_size` through `packed_size`, copy each block's first
`offset` bytes into it in chain order, and return the buffer — there is no
check of the running total, so the returned pointer is always the malloc
result (`some`), never a null "no data" signal.  The returned buffer is
the `m_total_size` bytes of the malloc region: the copied bytes followed
by untouched (modelled as 0) bytes if fewer were copied. -/
def arenaPack (st : ArenaState) : Nat × Option (List Nat) :=
  let c := packContents (chain st)
  (st.total, some ((c ++ List.replicate (st.total - c.length) 0).take st.total))

/-- Sum of the block offsets along a chain (the number of live bytes when
offsets are in range). -/
def sumOffsets : List ArenaBlk → Nat
  | [] => 0
  | b :: bs => b.offset + sumOffsets bs

/-- Capacity of the block buffer `alloc_noalign` would malloc from state
`st` for request `size` (0 when no new block is created); used to
constrain the length of the malloc contents parameter in `ArenaReachable`. -/
def arenaFreshCapNoalign (st : ArenaState) (size : Nat) : Nat :=
  if size ≤ usub st.curB.capacity st.curB.offset then 0
  else
    match st.post with
    | nb :: _ => if size ≤ nb.capacity then 0 else size
    | [] => max (3 * st.curB.capacity / 2) size

/-- Capacity of the block buffer `alloc` would malloc from state `st` for
request `size` (0 when no new block is created). -/
def arenaFreshCap (st : ArenaState) (size : Nat) : Nat :=
  if size ≤ usub st.curB.capacity (arenaCorrected st.curB) then 0
  else
    match st.post with
    | nb :: _ => if size ≤ nb.capacity then 0 else size
    | [] => max (3 * st.curB.capacity / 2) size

/-- Arena states reachable from the constructor through `alloc`,
`alloc_noalign` and `free` (`pack` does not change the state).  Buffer
addresses and contents chosen by malloc are arbitrary, with contents of
the length malloc was asked for. -/
inductive ArenaReachable : ArenaState → Prop where
  | init (capacity addr : Nat) (data : List Nat)
      (hlen : data.length = capacity) :
      ArenaReachable (arenaInit capacity addr data)
  | alloc {st : ArenaState} (size fA : Nat) (fD : List Nat)
      (h : ArenaReachable st) (hlen : fD.length = arenaFreshCap st size) :
      ArenaReachable (arenaAlloc st size fA fD).2
  | allocNoalign {st : ArenaState} (size fA : Nat) (fD : List Nat)
      (h : ArenaReachable st)
      (hlen : fD.length = arenaFreshCapNoalign st size) :
      ArenaReachable (arenaAllocNoalign st size fA fD).2
  | free {st : ArenaState} (h : ArenaReachable st) :
      ArenaReachable (arenaFree st)

/-- Well-formedness of a chain: every block's offset is within its
capacity and its buffer holds exactly `capacity` bytes.  This is the
spec's "offset never exceeds capacity" invariant; the sources can violate
it only through the unsigned-underflow capacity check (see the C3
theorem). -/
def arenaWF (l : List ArenaBlk) : Bool :=
  l.all (fun b => b.offset ≤ b.capacity && b.data.length == b.capacity)

/-! ## Helper lemmas about the arena chain -/

lemma sumOffsets_append (l₁ l₂ : List ArenaBlk) :
    sumOffsets (l₁ ++ l₂) = sumOffsets l₁ + sumOffsets l₂ := by
  induction l₁ with
  | nil => simp [sumOffsets]
  | cons b bs ih => simp [sumOffsets, ih]; omega

lemma zeroOffsets_length (l : List ArenaBlk) :
    (zeroOffsets l).length = l.length := by
  induction l with
  | nil => rfl
  | cons b bs ih => simp [zeroOffsets, ih]

lemma sumOffsets_zeroOffsets (l : List ArenaBlk) :
    sumOffsets (zeroOffsets l) = 0 := by
  induction l with
  | nil => rfl
  | cons b bs ih => simp [zeroOffsets, sumOffsets, ih]

lemma zeroOffsets_mem_offset {l : List ArenaBlk} {b : ArenaBlk}
    (h : b ∈ zeroOffsets l) : b.offset = 0 := by
  induction l with
  | nil => simp [zeroOffsets] at h
  | cons c cs ih =>
      simp only [zeroOffsets, List.mem_cons] at h
      rcases h with h | h
      · subst h; rfl
      · exact ih h

lemma zeroOffsets_eq_map (l : List ArenaBlk) :
    zeroOffsets l = l.map (fun b => ⟨b.addr, b.data, 0, b.capacity⟩) := by
  induction l with
  | nil => rfl
  | cons b bs ih => simp [zeroOffsets, ih]

lemma packContents_length {l : List ArenaBlk}
    (h : ∀ b ∈ l, b.offset ≤ b.data.length) :
    (packContents l).length = sumOffsets l := by
  induction l with
  | nil => rfl
  | cons b bs ih =>
      have hb := h b (by simp)
      simp only [packContents, sumOffsets, List.length_append,
        List.length_take]
      rw [ih (fun c hc => h c (by simp [hc]))]
      omega

lemma packContents_eq_nil {l : List ArenaBlk} (h : sumOffsets l = 0) :
    packContents l = [] := by
  induction l with
  | nil => rfl
  | cons b bs ih =>
      simp only [sumOffsets] at h
      simp only [packContents, ih (by omega)]
      have : b.offset = 0 := by omega
      simp [this]

lemma arenaCorrected_ge (b : ArenaBlk) : b.offset ≤ arenaCorrected b := by
  simp only [arenaCorrected]
  split <;> omega

/-- Invariant: the running total `m_total_size` equals the sum of the
block offsets along the chain, in every reachable arena state. -/
lemma arena_total_eq_sumOffsets {st : ArenaState}
    (h : ArenaReachable st) : st.total = sumOffsets (chain st) := by
  induction h with
  | init capacity addr data hlen =>
      simp [arenaInit, chain, sumOffsets]
  | @alloc st size fA fD h hlen ih =>
      have hge := arenaCorrected_ge st.curB
      simp only [arenaAlloc]
      split
      · simp only [chain, sumOffsets_append, sumOffsets] at ih ⊢
        omega
      · split
        · next nb rest hpost =>
            split
            · simp only [chain, hpost, sumOffsets_append, sumOffsets]
                at ih ⊢
              omega
            · simp only [chain, hpost, sumOffsets_append, sumOffsets]
                at ih ⊢
              omega
        · next hpost =>
            simp only [chain, hpost, sumOffsets_append, sumOffsets]
              at ih ⊢
            omega
  | @allocNoalign st size fA fD h hlen ih =>
      simp only [arenaAllocNoalign]
      split
      · simp only [chain, sumOffsets_append, sumOffsets] at ih ⊢
        omega
      · split
        · next nb rest hpost =>
            split
            · simp only [chain, hpost, sumOffsets_append, sumOffsets]
                at ih ⊢
              omega
            · simp only [chain, hpost, sumOffsets_append, sumOffsets]
                at ih ⊢
              omega
        · next hpost =>
            simp only [chain, hpost, sumOffsets_append, sumOffsets]
              at ih ⊢
            omega
  | @free st h ih =>
      simp only [arenaFree]
      split
      · next heq =>
          have hlen := congrArg List.length heq
          simp [zeroOffsets_length, chain] at hlen
      · next hB t heq =>
          have h0 : sumOffsets (hB :: t) = 0 := by
            rw [← heq]; exact sumOffsets_zeroOffsets _
          simpa [chain, sumOffsets] using h0.symm

/-- Invariant: every block strictly after `m_current` has offset 0, in
every reachable arena state. -/
lemma arena_post_offsets_zero {st : ArenaState}
    (h : ArenaReachable st) : ∀ b ∈ st.post, b.offset = 0 := by
  induction h with
  | init capacity addr data hlen =>
      simp [arenaInit]
  | @alloc st size fA fD h hlen ih =>
      simp only [arenaAlloc]
      split
      · exact ih
      · split
        · next nb rest hpost =>
            split
            · intro b hb
              simp only at hb
              exact ih b (by rw [hpost]; exact List.mem_cons_of_mem _ hb)
            · intro b hb
              simp only at hb
              exact ih b (by rw [hpost]; exact hb)
        · intro b hb
          simp only at hb
          simp at hb
  | @allocNoalign st size fA fD h hlen ih =>
      simp only [arenaAllocNoalign]
      split
      · exact ih
      · split
        · next nb rest hpost =>
            split
            · intro b hb
              simp only at hb
              exact ih b (by rw [hpost]; exact List.mem_cons_of_mem _ hb)
            · intro b hb
              simp only at hb
              exact ih b (by rw [hpost]; exact hb)
        · intro b hb
          simp only at hb
          simp at hb
  | @free st h ih =>
      simp only [arenaFree]
      split
      · simp
      · next hB t heq =>
          intro b hb
          exact zeroOffsets_mem_offset (by rw [heq]; simp only at hb; simp [hb])

/-! ## Claim C9 -/

/-- C9: in every reachable arena state, every block strictly after the
current block has offset 0; consequently, when `alloc` advances into an
already-existing next block (branch 2 of the source), returning that
block's buffer base address is returning the address of the allocated
range, i.e. base + the block's pre-bump offset. -/
theorem arena_after_current_zero (st : ArenaState)
    (h : ArenaReachable st) :
    (∀ b ∈ st.post, b.offset = 0)
  ∧ (∀ (size fA : Nat) (fD : List Nat) (nb : ArenaBlk)
      (rest : List ArenaBlk), st.post = nb :: rest →
      ¬ size ≤ usub st.curB.capacity (arenaCorrected st.curB) →
      size ≤ nb.capacity →
      (arenaAlloc st size fA fD).1 = nb.addr + nb.offset) := by
  refine ⟨arena_post_offsets_zero h, ?_⟩
  intro size fA fD nb rest hpost hnofit hfit
  have h0 : nb.offset = 0 :=
    arena_post_offsets_zero h nb (by rw [hpost]; simp)
  simp only [arenaAlloc, if_neg hnofit, hpost, if_pos hfit]
  omega

/-- An arena that grew one extra block and was then reset with `free()`:
one block of data after `m_head`, offsets zeroed. -/
def arenaW9 : ArenaState :=
  arenaFree
    ((arenaAllocNoalign (arenaInit 4 0 (List.replicate 4 0)) 6 96
      (List.replicate 6 0)).2)

lemma arenaW9_reachable : ArenaReachable arenaW9 :=
  ArenaReachable.free
    (ArenaReachable.allocNoalign 6 96 (List.replicate 6 0)
      (ArenaReachable.init 4 0 (List.replicate 4 0) (by decide))
      (by decide))

theorem arena_after_current_zero_witness :
    (arenaAlloc arenaW9 5 7 []).1 =
      (⟨96, List.replicate 6 0, 0, 6⟩ : ArenaBlk).addr +
        (⟨96, List.replicate 6 0, 0, 6⟩ : ArenaBlk).offset :=
  (arena_after_current_zero arenaW9 arenaW9_reachable).2 5 7 []
    ⟨96, List.replicate 6 0, 0, 6⟩ [] (by decide) (by decide) (by decide)

/-! ## Claim C1 -/

/-- An arena that grew a second block (initial capacity 4, one allocation
of 6 bytes). -/
def arenaC1 : ArenaState :=
  (arenaAllocNoalign (arenaInit 4 0 (List.replicate 4 0)) 6 96
    (List.replicate 6 0)).2

/-- C1 counterexample: after `free()` the chain still holds 2 blocks and
`m_head->next` is still a block (the model's `post` of the reset state is
nonempty), so the blocks after head are not released and head is not
unlinked, contradicting the claim that only the head block remains. -/
theorem arena_free_keeps_blocks_cex :
    (chain (arenaFree arenaC1)).length = 2
  ∧ (arenaFree arenaC1).post ≠ []
  ∧ (2 : Nat) ≠ 1 := by decide

/-- C1 amended: `free()` keeps every block of the chain (releasing
nothing and leaving head linked to its successor), zeroes every block's
offset, resets `m_current` to `m_head` and the running total to 0. -/
theorem arena_free_amended (st : ArenaState) :
    (arenaFree st).pre = [] ∧ (arenaFree st).total = 0
  ∧ chain (arenaFree st) =
      (chain st).map (fun b => ⟨b.addr, b.data, 0, b.capacity⟩) := by
  simp only [arenaFree]
  split
  · next heq =>
      have hlen := congrArg List.length heq
      simp [zeroOffsets_length, chain] at hlen
  · next hB t heq =>
      refine ⟨rfl, rfl, ?_⟩
      simp only [chain, List.nil_append]
      rw [← zeroOffsets_eq_map, ← heq]
      simp [chain]

/-! ## Claim C2 -/

/-- State exercising the `size_t` underflow: capacity 10, base address a
multiple of 8, `alloc_noalign(10)` filling the block, then `alloc(1)`
"succeeding" through the wrapped subtraction so the single block's offset
becomes 17 > 10 and the running total becomes 17. -/
def arenaC2 : ArenaState :=
  (arenaAlloc
    ((arenaAllocNoalign (arenaInit 10 0 (List.replicate 10 0)) 10 0 []).2)
    1 0 []).2

/-- C2 counterexample: in the underflow state the running total — and
with it pack's out_size and the size of the malloc'd packed buffer — is
17, yet only 10 bytes of buffer exist across the chain, so the packed
buffer cannot equal the concatenation of the blocks' live prefixes (the
C `memcpy` reads out of bounds there). -/
theorem arena_pack_oob_cex :
    (arenaPack arenaC2).1 = 17
  ∧ (packContents (chain arenaC2)).length = 10
  ∧ (17 : Nat) ≠ 10 := by decide

/-- C2 amended: in every reachable arena state in which each block's
offset is within its capacity (which can fail only through the
unsigned-underflow capacity check, see C3), `pack` stores the running
total through `packed_size` and returns a buffer of exactly that many
bytes equal to the in-order concatenation of the blocks' live prefixes. -/
theorem arena_pack_exact (st : ArenaState) (h : ArenaReachable st)
    (hwf : arenaWF (chain st) = true) :
    arenaPack st = (st.total, some (packContents (chain st)))
  ∧ (packContents (chain st)).length = st.total := by
  have hoff : ∀ b ∈ chain st, b.offset ≤ b.data.length := by
    intro b hb
    have hb2 := List.all_eq_true.mp hwf b hb
    simp only [arenaWF, Bool.and_eq_true, decide_eq_true_eq,
      beq_iff_eq] at hb2
    omega
  have hlen : (packContents (chain st)).length = st.total := by
    rw [packContents_length hoff, ← arena_total_eq_sumOffsets h]
  refine ⟨?_, hlen⟩
  simp only [arenaPack]
  rw [← hlen]
  simp [List.take_length]

/-- A well-formed reachable arena: capacity 8, one 3-byte allocation. -/
def arenaW2 : ArenaState :=
  (arenaAllocNoalign (arenaInit 8 0 [1, 2, 3, 4, 5, 6, 7, 8]) 3 0 []).2

lemma arenaW2_reachable : ArenaReachable arenaW2 :=
  ArenaReachable.allocNoalign 3 0 []
    (ArenaReachable.init 8 0 [1, 2, 3, 4, 5, 6, 7, 8] (by decide))
    (by decide)

theorem arena_pack_exact_witness :
    arenaPack arenaW2 = (arenaW2.total, some (packContents (chain arenaW2)))
  ∧ (packContents (chain arenaW2)).length = arenaW2.total :=
  arena_pack_exact arenaW2 arenaW2_reachable (by decide)

/-! ## Claim C4 -/

/-- Build-up for the C4 counterexample: grow an arena to a chain whose
blocks have capacities 8, 16, 32, reset it with `free()`, splice in a
24-capacity block, reset again, and advance into that block.  All block
base addresses are multiples of 8 (as malloc guarantees), so no
alignment padding occurs where none is wanted. -/
def c4s1 : ArenaState :=
  (arenaAlloc (arenaInit 8 0 (List.replicate 8 0)) 8 0 []).2
def c4s2 : ArenaState := (arenaAlloc c4s1 16 8 (List.replicate 16 0)).2
def c4s3 : ArenaState := (arenaAlloc c4s2 32 104 (List.replicate 32 0)).2
def c4s4 : ArenaState := arenaFree c4s3
def c4s5 : ArenaState := (arenaAlloc c4s4 24 200 (List.replicate 24 0)).2
def c4s6 : ArenaState := arenaFree c4s5
def c4s7 : ArenaState := (arenaAlloc c4s6 16 0 []).2

/-- C4 counterexample: from `c4s7` (current block capacity 24 with offset
16, next block capacity 16) the 20-byte allocation does not fit, the next
block is too small, and the source creates a new block of capacity exactly
20 — not `max(current.capacity * 1.5, size) = max(36, 20) = 36` as the
claim states for every newly created block. -/
theorem arena_new_block_capacity_cex :
    (arenaAlloc c4s7 20 300 (List.replicate 20 0)).2.curB.capacity = 20
  ∧ (chain (arenaAlloc c4s7 20 300 (List.replicate 20 0)).2).length = 5
  ∧ (chain c4s7).length = 4
  ∧ c4s7.curB.capacity = 24
  ∧ max (3 * 24 / 2) 20 = 36
  ∧ (20 : Nat) ≠ 36 := by decide

/-- C4 amended: when the (alignment-corrected) request does not fit the
current block, the source creates a new block of capacity
`max(current.capacity * 1.5, size)` only when current has no successor
(the new block is appended); when a too-small successor exists the new
block's capacity is exactly `size`.  In both cases the new block is
spliced immediately after current (preserving all blocks already chained
downstream), becomes the current block, its offset becomes `size`, `size`
is added to the running total, and its base address is returned. -/
theorem arena_new_block_amended (st : ArenaState) (size fA : Nat)
    (fD : List Nat)
    (hnofit : ¬ size ≤ usub st.curB.capacity (arenaCorrected st.curB)) :
    (st.post = [] →
      arenaAlloc st size fA fD =
        (fA, ⟨st.pre ++ [st.curB],
          ⟨fA, fD, size, max (3 * st.curB.capacity / 2) size⟩,
          [], st.total + size⟩))
  ∧ ∀ (nb : ArenaBlk) (rest : List ArenaBlk),
      st.post = nb :: rest → ¬ size ≤ nb.capacity →
      arenaAlloc st size fA fD =
        (fA, ⟨st.pre ++ [st.curB], ⟨fA, fD, size, size⟩,
          nb :: rest, st.total + size⟩) := by
  constructor
  · intro hpost
    simp only [arenaAlloc, if_neg hnofit, hpost]
  · intro nb rest hpost hsmall
    simp only [arenaAlloc, if_neg hnofit, hpost, if_neg hsmall]

theorem arena_new_block_amended_witness :
    arenaAlloc c4s7 20 300 (List.replicate 20 0) =
      (300, ⟨c4s7.pre ++ [c4s7.curB],
        ⟨300, List.replicate 20 0, 20, 20⟩,
        (⟨8, List.replicate 16 0, 0, 16⟩ : ArenaBlk) ::
          [⟨104, List.replicate 32 0, 0, 32⟩],
        c4s7.total + 20⟩) :=
  (arena_new_block_amended c4s7 20 300 (List.replicate 20 0)
      (by decide)).2
    ⟨8, List.replicate 16 0, 0, 16⟩ [⟨104, List.replicate 32 0, 0, 32⟩]
    (by decide) (by decide)

/-! ## Claim C6 -/

/-- C6 counterexample: `pack` on a freshly constructed, unused arena
(running total 0) stores 0 through `packed_size` and returns the malloc'd
(empty) buffer — a `some` value, not the null "no data" signal the claim
describes; the source contains no check of the running total at all. -/
theorem arena_pack_empty_cex :
    arenaPack (arenaInit 16 0 (List.replicate 16 0)) = (0, some [])
  ∧ (some ([] : List Nat)) ≠ none := by decide

/-- C6 amended: on every reachable arena whose running total is 0, `pack`
stores 0 through `packed_size` and returns the zero-length buffer obtained
from `malloc(0)` (no bytes are copied); no distinguished no-data signal is
produced. -/
theorem arena_pack_zero_total_amended (st : ArenaState)
    (h : ArenaReachable st) (h0 : st.total = 0) :
    arenaPack st = (0, some []) ∧ packContents (chain st) = [] := by
  have hsum : sumOffsets (chain st) = 0 := by
    rw [← arena_total_eq_sumOffsets h, h0]
  have hpc := packContents_eq_nil hsum
  exact ⟨by simp [arenaPack, hpc, h0], hpc⟩

theorem arena_pack_zero_total_witness :
    arenaPack (arenaInit 16 0 (List.replicate 16 0)) = (0, some [])
  ∧ packContents (chain (arenaInit 16 0 (List.replicate 16 0))) = [] :=
  arena_pack_zero_total_amended _
    (ArenaReachable.init 16 0 (List.replicate 16 0) (by decide)) (by decide)

/-! ## Claim C3 -/

/-- A full stack allocator: capacity 10, one 10-byte allocation with
alignment 1 (so the offset is exactly 10 = capacity). -/
def stackC3 : StackState := ⟨10, 10, List.replicate 10 0⟩

/-- A full linear allocator with 8-aligned base address: capacity 10, one
10-byte `alloc_noalign`. -/
def linearC3 : LinearState := ⟨0, List.replicate 10 0, 10, 10⟩

/-- C3 evaluation at the failing input: in a full 10-byte stack allocator
`alloc_align(1, 8)` computes `corrected_offset = 16 > capacity`, the
`size_t` check `1 <= 10 - 16` wraps around and passes, and the offset
becomes 17 > capacity — the "offset never exceeds capacity" invariant is
violated.  The linear allocator's aligned `alloc` has the same defect:
from a full 10-byte buffer at an 8-aligned address, `alloc(1)` sets the
offset to 17. -/
theorem stack_offset_exceeds_capacity_bug :
    stackAllocAlign (stackInit 10 (List.replicate 10 0)) 10 1 =
      some (some 0, stackC3)
  ∧ stackAllocAlign stackC3 1 8 =
      some (some 16, ⟨17, 10, List.replicate 10 0⟩)
  ∧ stackC3.capacity < 17
  ∧ linearAllocNoalign (linearInit 10 0 (List.replicate 10 0)) 10 =
      (some 0, linearC3)
  ∧ linearAlloc linearC3 1 =
      (some 16, ⟨0, List.replicate 10 0, 17, 10⟩)
  ∧ linearC3.capacity < 17 := by decide

/-! ## Claim C5 -/

/-- A full 4-byte linear allocator holding live bytes `[5, 6, 7, 8]`. -/
def linearC5 : LinearState := (linearAllocNoalign (linearInit 4 0 [5, 6, 7, 8]) 4).2

/-- C5 evaluation at the failing input: with capacity 4 and offset 4 (live
prefix `[5, 6, 7, 8]`), `resize(8)` copies `m_capacity - m_offset + 1 = 1`
byte instead of the 4-byte live prefix, so the first 4 bytes of the new
buffer are `[5, 9, 9, 9]` (9 being the new buffer's malloc garbage) and
3 live bytes are lost.  (The stack allocator's `resize` does copy
`_offset` bytes, matching the claim.) -/
theorem linear_resize_copy_bug :
    linearC5 = ⟨0, [5, 6, 7, 8], 4, 4⟩
  ∧ linearResize linearC5 8 100 (List.replicate 8 9) =
      ⟨100, [5, 9, 9, 9, 9, 9, 9, 9], 4, 8⟩
  ∧ (linearResize linearC5 8 100 (List.replicate 8 9)).data.take 4 ≠
      linearC5.data.take linearC5.offset := by decide

/-! ## Claim C7 -/

/-- A stack allocator with current offset 5 (capacity 10, one 5-byte
allocation with alignment 1). -/
def stackC7 : StackState := ⟨5, 10, List.replicate 10 0⟩

/-- C7 counterexample: the marker 5 returned by `get_offset()` satisfies
`marker ≤ current offset`, yet `free_to_offset(5)` fails its range
assertion (`none`), because the source asserts the strict
`offset < _offset`. -/
theorem stack_free_to_marker_eq_cex :
    stackAllocAlign (stackInit 10 (List.replicate 10 0)) 5 1 =
      some (some 0, stackC7)
  ∧ stackGetOffset stackC7 = 5
  ∧ stackFreeToOffset stackC7 5 = none := by decide

/-- C7 amended: `free_to_offset(marker)` passes its range assertion
exactly for `marker < current offset` (markers equal to the current
offset are rejected) and then sets the offset to `marker`. -/
theorem stack_free_to_marker_amended (st : StackState) (m : Nat)
    (h : m < st.offset) :
    stackFreeToOffset st m = some ⟨m, st.capacity, st.data⟩ := by
  simp [stackFreeToOffset, h]

theorem stack_free_to_marker_witness :
    stackFreeToOffset stackC7 3 = some ⟨3, 10, List.replicate 10 0⟩ :=
  stack_free_to_marker_amended stackC7 3 (by decide)

/-! ## Claim C8 -/

lemma range_succ_stride (base s n : Nat) :
    (List.range (n + 1)).map (fun i => base + i * s) =
      base :: (List.range n).map (fun i => base + (i + 1) * s) := by
  rw [List.range_succ_eq_map]
  simp [List.map_map, Function.comp_def]

/-- Popping exactly `freeList.length` chunks returns every free chunk in
list order and empties the free list. -/
lemma poolAllocN_drain (st : PoolState) (l : List Nat)
    (h : st.freeList = l) :
    poolAllocN st l.length =
      (l.map some,
        ⟨st.chunkCount, st.chunkSize, st.bufferAddr, []⟩) := by
  induction l generalizing st with
  | nil =>
      simp only [List.length_nil, poolAllocN, List.map_nil]
      rw [← h]
  | cons p rest ih =>
      simp only [List.length_cons, poolAllocN, poolAlloc, h]
      rw [ih ⟨st.chunkCount, st.chunkSize, st.bufferAddr, rest⟩ rfl]
      simp

/-- C8: on any pool state with `chunk_count ≥ 1`, `free_all()` rebuilds
the free list as exactly the `chunk_count` chunk addresses in buffer
stride order (each free chunk's stored next reference being the following
chunk, the last holding the null sentinel — the end of the model list);
consequently `chunk_count` successive `alloc()` calls return exactly those
addresses in order and the next `alloc()` returns the "no space" signal. -/
theorem pool_free_all_strided (st : PoolState)
    (h : 1 ≤ st.chunkCount) :
    (poolFreeAll st).freeList =
      (List.range st.chunkCount).map
        (fun i => st.bufferAddr + i * st.chunkSize)
  ∧ (poolAllocN (poolFreeAll st) st.chunkCount).1 =
      ((List.range st.chunkCount).map
        (fun i => st.bufferAddr + i * st.chunkSize)).map some
  ∧ (poolAlloc (poolAllocN (poolFreeAll st) st.chunkCount).2).1 =
      none := by
  have h1 : (poolFreeAll st).freeList =
      (List.range st.chunkCount).map
        (fun i => st.bufferAddr + i * st.chunkSize) := by
    obtain ⟨n, hn⟩ : ∃ n, st.chunkCount = n + 1 :=
      ⟨st.chunkCount - 1, by omega⟩
    rw [hn, range_succ_stride]
    simp [poolFreeAll, hn]
  have hlen : ((List.range st.chunkCount).map
      (fun i => st.bufferAddr + i * st.chunkSize)).length =
      st.chunkCount := by simp
  have hd := poolAllocN_drain (poolFreeAll st) _ h1
  rw [hlen] at hd
  refine ⟨h1, ?_, ?_⟩
  · rw [hd]
  · rw [hd]
    simp [poolAlloc]

theorem pool_free_all_strided_witness :
    (poolFreeAll (poolInit 3 5 100)).freeList =
      (List.range (poolInit 3 5 100).chunkCount).map
        (fun i => (poolInit 3 5 100).bufferAddr +
          i * (poolInit 3 5 100).chunkSize)
  ∧ (poolAllocN (poolFreeAll (poolInit 3 5 100))
      (poolInit 3 5 100).chunkCount).1 =
      ((List.range (poolInit 3 5 100).chunkCount).map
        (fun i => (poolInit 3 5 100).bufferAddr +
          i * (poolInit 3 5 100).chunkSize)).map some
  ∧ (poolAlloc (poolAllocN (poolFreeAll (poolInit 3 5 100))
      (poolInit 3 5 100).chunkCount).2).1 = none :=
  pool_free_all_strided (poolInit 3 5 100) (by decide)

/-! ## Claim C10 -/

/-- C10: `free(p)` immediately followed by `alloc()` returns exactly `p`
and restores the pool state — in particular the free-list head — to what
it was before the pair of calls (pushing then popping the intrusive list
is the identity). -/
theorem pool_free_alloc_identity (st : PoolState) (p : Nat) :
    poolAlloc (poolFree st p) = (some p, st) := rfl
